import Mathlib

/-!
Verification development for the entity-resolution and retrieval pipeline of
the `personal-investor-memory` repository.

The Python sources are shallowly embedded:
* Python `str` values are modelled as Lean `String` (or `List Char` where
  character-level manipulation is what the source does);
* `async` functions are modelled as plain functions, except where a missing
  `await` in the source is itself under scrutiny, in which case a
  `PyCoroutine` wrapper makes the un-awaited call visible;
* fallible Python code (uncaught exceptions, SQL constraint violations) is
  modelled with `Except PyErr`;
* UUID generation is modelled by a `Nat` counter carried in the storage state;
* floating point scores/confidences are modelled as `ℚ` (the source only ever
  compares and stores literal constants such as 0.9 or 1.0).

Each embedded definition cites the source file and lines it is translated
from.  Definitions marked `Modelled from the spec:` correspond to repository
code that is declared but not implemented under `src/` (bodies that raise
`NotImplementedError`).
-/

/-! ## Python string primitives (shared helpers) -/

/-- Python exception outcomes that the embedded code can produce. -/
inductive PyErr where
  | typeError
  | attributeError
  | valueError
  | integrityError
  | multipleResults
deriving DecidableEq, Repr

/-- Characters stripped by Python `str.strip()` with no argument
(space, tab, newline, carriage return, vertical tab, form feed). -/
def pyWs (c : Char) : Bool :=
  c == ' ' || c == '\t' || c == '\n' || c == '\r' || c == Char.ofNat 11 || c == Char.ofNat 12

/-- Python `str.strip()` on a character list: drop whitespace from both ends. -/
def pyStrip (l : List Char) : List Char :=
  (l.dropWhile pyWs).rdropWhile pyWs

/-- Python `str.lower()` (ASCII case folding, which is all the source relies on). -/
def pyLower (s : String) : String :=
  ⟨s.data.map Char.toLower⟩

/-- Worker for `pyTitle`: the Boolean records whether the previous character
was alphabetic (Python capitalises the first letter of each alphabetic run). -/
def pyTitleAux : Bool → List Char → List Char
  | _, [] => []
  | prevAlpha, c :: rest =>
    if c.isAlpha then
      (if prevAlpha then c.toLower else c.toUpper) :: pyTitleAux true rest
    else
      c :: pyTitleAux false rest

/-- Python `str.title()` (ASCII). -/
def pyTitle (s : String) : String :=
  ⟨pyTitleAux false s.data⟩

/-- Does `pat` occur at the head of `l`? -/
def headMatches : List Char → List Char → Bool
  | [], _ => true
  | _ :: _, [] => false
  | a :: as, b :: bs => a == b && headMatches as bs

/-- Python `sub in hay` substring test on character lists. -/
def containsSub : List Char → List Char → Bool
  | [], sub => headMatches sub []
  | h :: t, sub => headMatches sub (h :: t) || containsSub t sub

/-- Worker for `findSub`, scanning left to right carrying the current index. -/
def findSubAux : List Char → List Char → Nat → Int
  | [], sub, i => if headMatches sub [] then (i : Int) else -1
  | h :: t, sub, i => if headMatches sub (h :: t) then (i : Int) else findSubAux t sub (i + 1)

/-- Python `hay.find(sub)`: index of the first occurrence, `-1` if absent. -/
def findSub (hay sub : String) : Int :=
  findSubAux hay.data sub.data 0

/-- Python `text.rfind(sub, s, e)`: the largest index `i` with `s ≤ i` and
`i + sub.length ≤ min e text.length` at which `sub` occurs, if any. -/
def rfindSub (text sub : List Char) (s e : Nat) : Option Nat :=
  let bound := min e text.length
  (List.range (bound + 1)).foldl
    (fun acc i =>
      if s ≤ i ∧ i + sub.length ≤ bound ∧ headMatches sub (text.drop i) then some i else acc)
    none

/-- Python slice `l[a:b]` for non-negative bounds. -/
def pySlice (l : List Char) (a b : Nat) : List Char :=
  (l.drop a).take (b - a)

/-! ## Segmenter (src/src/ingestion/chunker.py) -/

/-- Configuration for text chunking (chunker.py lines 4-9), in "token" units. -/
structure ChunkConfig where
  chunk_size : Nat
  chunk_overlap : Nat
  min_chunk_size : Nat
deriving DecidableEq, Repr

/-- Default configuration `ChunkConfig()` (512/50/100). -/
def defaultChunkConfig : ChunkConfig := ⟨512, 50, 100⟩

/-- chunker.py line 30: `char_size = self.config.chunk_size * 4`. -/
def charSize (cfg : ChunkConfig) : Nat := 4 * cfg.chunk_size

/-- chunker.py line 31: `char_overlap = self.config.chunk_overlap * 4`. -/
def charOverlap (cfg : ChunkConfig) : Nat := 4 * cfg.chunk_overlap

/-- chunker.py line 32: `min_char_size = self.config.min_chunk_size * 4`. -/
def minCharSize (cfg : ChunkConfig) : Nat := 4 * cfg.min_chunk_size

/-- The sentence separators tried in order (chunker.py line 51). -/
def sentSeps : List (List Char) := [['.', ' '], ['!', ' '], ['?', ' '], ['\n']]

/-- The `for sep in [...]` loop of chunker.py lines 51-55: the first separator
whose last occurrence lies beyond `minEnd` determines the cut (just after it). -/
def sentCutAux (text : List Char) (s e0 minEnd : Nat) : List (List Char) → Option Nat
  | [] => none
  | sep :: rest =>
    match rfindSub text sep s e0 with
    | some sb => if minEnd < sb then some (sb + sep.length) else sentCutAux text s e0 minEnd rest
    | none => sentCutAux text s e0 minEnd rest

/-- The boundary-selection logic of chunker.py lines 41-55: start from the hard
cut `start + char_size`; if it falls inside the text, prefer the last paragraph
break beyond `min_char_size`, else the first qualifying sentence separator,
else keep the hard cut. -/
def cutEnd (cfg : ChunkConfig) (text : List Char) (start : Nat) : Nat :=
  let e0 := start + charSize cfg
  if e0 < text.length then
    match rfindSub text ['\n', '\n'] start e0 with
    | some pb =>
      if start + minCharSize cfg < pb then pb
      else (sentCutAux text start e0 (start + minCharSize cfg) sentSeps).getD e0
    | none => (sentCutAux text start e0 (start + minCharSize cfg) sentSeps).getD e0
  else e0

/-- One iteration of the `while` loop of chunker.py lines 40-61: the stripped
chunk for the current window and the next window start `end - char_overlap`.
Subtraction is `Nat` truncation; in every configuration reasoned about below
the Python value is non-negative, so the two semantics agree. -/
def chunkStep (cfg : ChunkConfig) (text : List Char) (start : Nat) : List Char × Nat :=
  let e := cutEnd cfg text start
  (pyStrip (pySlice text start e), e - charOverlap cfg)

/-- The `while start < len(text)` loop of chunker.py lines 40-61, with explicit
fuel: `none` means the given fuel was exhausted before the loop exited (in
particular, if every fuel value returns `none` the Python loop never
terminates). Chunks that are empty after stripping are dropped (lines 57-59). -/
def chunkLoop (cfg : ChunkConfig) (text : List Char) : Nat → Nat → Option (List (List Char))
  | 0, start => if start < text.length then none else some []
  | fuel + 1, start =>
    if start < text.length then
      match chunkLoop cfg text fuel (chunkStep cfg text start).2 with
      | none => none
      | some cs =>
        some (if (chunkStep cfg text start).1.isEmpty then cs else (chunkStep cfg text start).1 :: cs)
    else some []

/-- `TextChunker.chunk_text` (chunker.py lines 22-63).  Short inputs are
returned unchanged as a single chunk (lines 34-35, note: not stripped); longer
inputs run the windowing loop, here given `length + 1` fuel, which suffices
whenever the loop advances by at least one character per iteration. -/
def chunk_text (cfg : ChunkConfig) (text : List Char) : Option (List (List Char)) :=
  if text.length ≤ charSize cfg then some [text]
  else chunkLoop cfg text (text.length + 1) 0

/-! ## Mention extractor (src/src/entities/extractor.py) -/

/-- Entity kinds (src/src/models/base.py lines 16-19). -/
inductive EntityType where
  | company
  | person
  | theme
deriving DecidableEq, Repr

/-- The optional structured metadata dictionary attached to a mention
(extractor.py uses the keys "url", "email", "linkedin_url"). -/
structure MentionMeta where
  url : Option String
  email : Option String
  linkedin_url : Option String
deriving DecidableEq, Repr

/-- `ExtractedEntity` (extractor.py lines 11-19). -/
structure ExtractedEntity where
  text : String
  entity_type : EntityType
  start_pos : Int
  end_pos : Int
  confidence : ℚ
  metadata : Option MentionMeta
deriving DecidableEq, Repr

/-- Parsed JSON values, as produced by `json.loads` on the mention source's
raw output. -/
inductive JVal where
  | jnull
  | jbool (b : Bool)
  | jnum (n : Int)
  | jstr (s : String)
  | jarr (xs : List JVal)
  | jobj (kvs : List (String × JVal))

/-- Python `parsed.get(k, default)` on a JSON object's key/value list. -/
def jGet (kvs : List (String × JVal)) (k : String) : Option JVal :=
  (kvs.find? (fun kv => kv.1 == k)).map (·.2)

/-- The list-of-strings shape check of extractor.py lines 85-97: a non-list
value becomes `[]`, and elements that are not non-empty (after `strip`)
strings are dropped, keeping the surviving strings unmodified. -/
def llmNames (v : JVal) : List String :=
  match v with
  | .jarr xs =>
    xs.filterMap (fun x =>
      match x with
      | .jstr s => if pyStrip s.data = [] then none else some s
      | _ => none)
  | _ => []

/-- `EntityExtractor._extract_with_llm` after the model call (extractor.py
lines 79-97).  The input is the result of `json.loads` on the raw response:
`none` models both an unparseable body (`json.JSONDecodeError`) and a `None`
body (`TypeError`), which the source catches and turns into `([], [])`.  A
parse result that is not a JSON object reaches `parsed.get(...)` and raises
`AttributeError`, which the source does not catch. -/
def llmParse (raw : Option JVal) : Except PyErr (List String × List String) :=
  match raw with
  | none => .ok ([], [])
  | some (.jobj kvs) =>
    .ok (llmNames ((jGet kvs "companies").getD (.jarr [])),
         llmNames ((jGet kvs "people").getD (.jarr [])))
  | some _ => .error .attributeError

/-- Build the mention for an LLM-supplied name (extractor.py lines 108-122 and
125-138): position from `text.lower().find(name.lower())`, confidence 0.9. -/
def mkNameMention (text name : String) (ty : EntityType) : ExtractedEntity :=
  let start := findSub (pyLower text) (pyLower name)
  { text := name
    entity_type := ty
    start_pos := max start 0
    end_pos := if 0 ≤ start then start + (name.length : Int) else 0
    confidence := 9/10
    metadata := none }

/-- A match of `URL_PATTERN` (extractor.py lines 23-25): the full URL
(`group(0)`), the captured domain (`group(1)`), and the match span. -/
structure UrlMatch where
  url : String
  domain : String
  start_pos : Int
  end_pos : Int
deriving DecidableEq, Repr

/-- extractor.py line 151. -/
def skipDomains : List String :=
  ["linkedin.com", "google.com", "gmail.com", "github.com", "twitter.com", "x.com"]

/-- `EntityExtractor._extract_from_urls` candidate construction (extractor.py
lines 147-171), before the shared-seen de-duplication check: skip known
non-company base domains, then title-case the first domain label. -/
def urlCands (ms : List UrlMatch) : List ExtractedEntity :=
  ms.filterMap (fun m =>
    let parts := m.domain.split (· == '.')
    let base := String.intercalate "." (parts.drop (parts.length - 2))
    if base ∈ skipDomains then none
    else
      some { text := pyTitle (parts.headD "")
             entity_type := .company
             start_pos := m.start_pos
             end_pos := m.end_pos
             confidence := 9/10
             metadata := some ⟨some m.url, none, none⟩ })

/-- A match of `EMAIL_PATTERN` (extractor.py lines 26-28). -/
structure EmailMatch where
  email : String
  start_pos : Int
  end_pos : Int
deriving DecidableEq, Repr

/-- `EntityExtractor._extract_from_emails` candidate construction
(extractor.py lines 173-192): split the local part on `.`/`_`, keep parts of
length above one, title-case and join with spaces; an empty name is skipped. -/
def emailCands (ms : List EmailMatch) : List ExtractedEntity :=
  ms.filterMap (fun m =>
    let localPart := (m.email.split (· == '@')).headD ""
    let parts := localPart.split (fun c => c == '.' || c == '_')
    let name := String.intercalate " " ((parts.filter (fun p => 1 < p.length)).map pyTitle)
    if name = "" then none
    else
      some { text := name
             entity_type := .person
             start_pos := m.start_pos
             end_pos := m.end_pos
             confidence := 7/10
             metadata := some ⟨none, some m.email, none⟩ })

/-- A match of one of the two LinkedIn patterns (extractor.py lines 29-34):
the captured slug and the match span. -/
structure SlugMatch where
  slug : String
  start_pos : Int
  end_pos : Int
deriving DecidableEq, Repr

/-- Slug display name (extractor.py lines 201 and 216). -/
def slugName (slug : String) : String :=
  pyTitle (String.map (fun c => if c = '-' then ' ' else c) slug)

/-- Company candidates from LinkedIn company links (extractor.py lines 199-212). -/
def linkedinCompanyCands (ms : List SlugMatch) : List ExtractedEntity :=
  ms.map (fun m =>
    { text := slugName m.slug
      entity_type := .company
      start_pos := m.start_pos
      end_pos := m.end_pos
      confidence := 19/20
      metadata := some ⟨none, none, some ("https://www.linkedin.com/company/" ++ m.slug)⟩ })

/-- Person candidates from LinkedIn profile links (extractor.py lines 214-227). -/
def linkedinPersonCands (ms : List SlugMatch) : List ExtractedEntity :=
  ms.map (fun m =>
    { text := slugName m.slug
      entity_type := .person
      start_pos := m.start_pos
      end_pos := m.end_pos
      confidence := 19/20
      metadata := some ⟨none, none, some ("https://www.linkedin.com/in/" ++ m.slug)⟩ })

/-- The running `seen_names` discipline shared by every extraction stage
(extractor.py lines 105, 110-111, 127-128, 161-162, 182-183, 203-204,
218-219): a candidate is emitted only if its lower-cased text is not in the
set, which is then extended with that text. -/
def dedupScan : List ExtractedEntity → List String → List ExtractedEntity × List String
  | [], seen => ([], seen)
  | c :: rest, seen =>
    if pyLower c.text ∈ seen then dedupScan rest seen
    else
      ((c :: (dedupScan rest (pyLower c.text :: seen)).1),
       (dedupScan rest (pyLower c.text :: seen)).2)

/-- `EntityExtractor.extract` (extractor.py lines 99-145).  The external
collaborators are inputs: `raw` is the `json.loads` result of the mention
source's reply, and the four match lists are what the `re` module finds in
`text` for the URL, email and LinkedIn patterns.  The six stages append in
source order, threading one `seen_names` set. -/
def extract (text : String) (raw : Option JVal) (urls : List UrlMatch)
    (emails : List EmailMatch) (liCompanies liPersons : List SlugMatch) :
    Except PyErr (List ExtractedEntity) :=
  match llmParse raw with
  | .error e => .error e
  | .ok (cos, ppl) =>
    let s1 := dedupScan (cos.map (fun n => mkNameMention text n .company)) []
    let s2 := dedupScan (ppl.map (fun n => mkNameMention text n .person)) s1.2
    let s3 := dedupScan (urlCands urls) s2.2
    let s4 := dedupScan (emailCands emails) s3.2
    let s5 := dedupScan (linkedinCompanyCands liCompanies) s4.2
    let s6 := dedupScan (linkedinPersonCands liPersons) s5.2
    .ok (s1.1 ++ s2.1 ++ s3.1 ++ s4.1 ++ s5.1 ++ s6.1)

/-! ## Storage state and identity linker (src/src/entities/linker.py,
src/src/storage/relational.py, src/src/storage/models.py) -/

/-- `Company` (models/base.py lines 31-37); ids are drawn from the store's
counter, standing in for `uuid4`. -/
structure Company where
  id : Nat
  name : String
  url : Option String
  linkedin_url : Option String
deriving DecidableEq, Repr

/-- `Person` (models/base.py lines 40-46). -/
structure Person where
  id : Nat
  name : String
  email : Option String
  linkedin_url : Option String
deriving DecidableEq, Repr

/-- `Chunk` (models/base.py lines 81-91). -/
structure ChunkRec where
  id : Nat
  text : String
  source_id : Nat
  source_type : String
  entity_ids : List Nat
  embedding : Option (List ℚ)
  metadata : List (String × String)
deriving DecidableEq, Repr

/-- The relational store's tables in insertion order, plus the id supply. -/
structure Store where
  companies : List Company
  persons : List Person
  chunks : List ChunkRec
  nextId : Nat
deriving DecidableEq, Repr

/-- Python truthiness of an optional string: `if linkedin_url:` treats both
`None` and the empty string as absent (linker.py lines 54, 59, 81, 86). -/
def truthy : Option String → Option String
  | some s => if s = "" then none else some s
  | none => none

/-- SQLAlchemy `scalar_one_or_none` on the rows a query returns: the sole row,
`None` when there is none, and `MultipleResultsFound` when several match. -/
def scalarOneOrNone {α : Type} (l : List α) : Except PyErr (Option α) :=
  match l with
  | [] => .ok none
  | [x] => .ok (some x)
  | _ => .error .multipleResults

/-- `RelationalStore.get_company_by_linkedin` (relational.py lines 284-290). -/
def get_company_by_linkedin (s : Store) (l : String) : Except PyErr (Option Company) :=
  scalarOneOrNone (s.companies.filter (fun c => c.linkedin_url == some l))

/-- `RelationalStore.get_company_by_url` (relational.py lines 276-282). -/
def get_company_by_url (s : Store) (u : String) : Except PyErr (Option Company) :=
  scalarOneOrNone (s.companies.filter (fun c => c.url == some u))

/-- `RelationalStore.search_companies_by_name` (relational.py lines 292-301):
case-insensitive substring match (`ilike '%name%'`), limited to 5 rows. -/
def search_companies_by_name (s : Store) (name : String) : List Company :=
  (s.companies.filter (fun c => containsSub (pyLower c.name).data (pyLower name).data)).take 5

/-- `RelationalStore.get_person_by_linkedin` (relational.py lines 331-337). -/
def get_person_by_linkedin (s : Store) (l : String) : Except PyErr (Option Person) :=
  scalarOneOrNone (s.persons.filter (fun p => p.linkedin_url == some l))

/-- `RelationalStore.get_person_by_email` (relational.py lines 323-329). -/
def get_person_by_email (s : Store) (e : String) : Except PyErr (Option Person) :=
  scalarOneOrNone (s.persons.filter (fun p => p.email == some e))

/-- `RelationalStore.search_people_by_name` (relational.py lines 339-348). -/
def search_people_by_name (s : Store) (name : String) : List Person :=
  (s.persons.filter (fun p => containsSub (pyLower p.name).data (pyLower name).data)).take 5

/-- `RelationalStore.save_company` (relational.py lines 258-269) against the
schema of storage/models.py lines 48-56: the `url` and `linkedin_url` columns
are `unique=True` (SQL uniqueness ignores NULLs), so committing a duplicate
non-null value raises `IntegrityError` and persists nothing. -/
def save_company (s : Store) (c : Company) : Except PyErr Store :=
  if (c.url ≠ none ∧ s.companies.any (fun a => a.url == c.url)) ∨
     (c.linkedin_url ≠ none ∧ s.companies.any (fun a => a.linkedin_url == c.linkedin_url)) then
    .error .integrityError
  else
    .ok { s with companies := s.companies ++ [c], nextId := s.nextId + 1 }

/-- `RelationalStore.save_person` (relational.py lines 305-316) against the
schema of storage/models.py lines 59-67 (`linkedin_url` and `email` unique). -/
def save_person (s : Store) (p : Person) : Except PyErr Store :=
  if (p.email ≠ none ∧ s.persons.any (fun a => a.email == p.email)) ∨
     (p.linkedin_url ≠ none ∧ s.persons.any (fun a => a.linkedin_url == p.linkedin_url)) then
    .error .integrityError
  else
    .ok { s with persons := s.persons ++ [p], nextId := s.nextId + 1 }

/-- The final stage of `EntityLinker.link_company` (linker.py lines 64-72):
fuzzy name search taking the first hit, else create and save a new company
carrying the mention's raw `url`/`linkedin_url`. -/
def link_company_fallback_name (s : Store) (name : String) (url linkedin_url : Option String) :
    Except PyErr (Company × Store) :=
  match (search_companies_by_name s name).head? with
  | some c => .ok (c, s)
  | none =>
    match save_company s ⟨s.nextId, name, url, linkedin_url⟩ with
    | .error e => .error e
    | .ok s' => .ok (⟨s.nextId, name, url, linkedin_url⟩, s')

/-- The middle stage of `EntityLinker.link_company` (linker.py lines 59-62):
domain-URL lookup, falling through to the name stage. -/
def link_company_fallback_url (s : Store) (name : String) (url linkedin_url : Option String) :
    Except PyErr (Company × Store) :=
  match truthy url with
  | some u =>
    match get_company_by_url s u with
    | .error e => .error e
    | .ok (some c) => .ok (c, s)
    | .ok none => link_company_fallback_name s name url linkedin_url
  | none => link_company_fallback_name s name url linkedin_url

/-- `EntityLinker.link_company` (linker.py lines 46-72): LinkedIn URL lookup
first, then domain URL lookup, then fuzzy name search taking the first hit,
then creation (the matched record is never back-filled with the mention's
identifiers). -/
def link_company (s : Store) (name : String) (url linkedin_url : Option String) :
    Except PyErr (Company × Store) :=
  match truthy linkedin_url with
  | some l =>
    match get_company_by_linkedin s l with
    | .error e => .error e
    | .ok (some c) => .ok (c, s)
    | .ok none => link_company_fallback_url s name url linkedin_url
  | none => link_company_fallback_url s name url linkedin_url

/-- The final stage of `EntityLinker.link_person` (linker.py lines 91-98). -/
def link_person_fallback_name (s : Store) (name : String) (email linkedin_url : Option String) :
    Except PyErr (Person × Store) :=
  match (search_people_by_name s name).head? with
  | some p => .ok (p, s)
  | none =>
    match save_person s ⟨s.nextId, name, email, linkedin_url⟩ with
    | .error e => .error e
    | .ok s' => .ok (⟨s.nextId, name, email, linkedin_url⟩, s')

/-- The middle stage of `EntityLinker.link_person` (linker.py lines 86-89):
email lookup, falling through to the name stage. -/
def link_person_fallback_email (s : Store) (name : String) (email linkedin_url : Option String) :
    Except PyErr (Person × Store) :=
  match truthy email with
  | some em =>
    match get_person_by_email s em with
    | .error e => .error e
    | .ok (some p) => .ok (p, s)
    | .ok none => link_person_fallback_name s name email linkedin_url
  | none => link_person_fallback_name s name email linkedin_url

/-- `EntityLinker.link_person` (linker.py lines 74-98): LinkedIn URL lookup,
then email lookup, then fuzzy name search, then creation. -/
def link_person (s : Store) (name : String) (email linkedin_url : Option String) :
    Except PyErr (Person × Store) :=
  match truthy linkedin_url with
  | some l =>
    match get_person_by_linkedin s l with
    | .error e => .error e
    | .ok (some p) => .ok (p, s)
    | .ok none => link_person_fallback_email s name email linkedin_url
  | none => link_person_fallback_email s name email linkedin_url

/-- `EntityLinker.link_entity` (linker.py lines 22-44): route on the mention's
type, probing the metadata dictionary for the structured keys; an unknown
type raises `ValueError`.  Only the entity id flows back into the pipeline. -/
def link_entity (s : Store) (m : ExtractedEntity) : Except PyErr (Nat × Store) :=
  let meta := m.metadata.getD ⟨none, none, none⟩
  match m.entity_type with
  | .company => (link_company s m.text meta.url meta.linkedin_url).map (fun r => (r.1.id, r.2))
  | .person => (link_person s m.text meta.email meta.linkedin_url).map (fun r => (r.1.id, r.2))
  | .theme => .error .valueError

/-! ## Vector index (src/src/storage/vector.py) -/

/-- Decimal digits of a natural number, most significant first (model of the
digits of Python's `str(...)` on the id counter standing in for a UUID). -/
def natDigits (n : Nat) : List Nat :=
  if _h : n < 10 then [n] else natDigits (n / 10) ++ [n % 10]
termination_by n
decreasing_by exact Nat.div_lt_self (by omega) (by omega)

/-- A digit rendered as a character. -/
def digitChar (d : Nat) : Char := Char.ofNat (48 + d)

/-- Python `str(n)` as a character list. -/
def natStrL (n : Nat) : List Char := (natDigits n).map digitChar

/-- Join character-list pieces with a single delimiter (Python `d.join`). -/
def joinCh (d : Char) : List (List Char) → List Char
  | [] => []
  | [x] => x
  | x :: y :: rest => x ++ d :: joinCh d (y :: rest)

/-- Split a character list on a delimiter (Python `s.split(d)`): always at
least one (possibly empty) group. -/
def splitCh (d : Char) : List Char → List (List Char)
  | [] => [[]]
  | c :: t =>
    if c = d then [] :: splitCh d t
    else
      match splitCh d t with
      | [] => [[c]]
      | g :: gs => (c :: g) :: gs

/-- vector.py line 45: `"|" + "|".join(str(eid) for eid in chunk.entity_ids)
+ "|" if chunk.entity_ids else ""`. -/
def encodeEntityIds (ids : List Nat) : List Char :=
  if ids.isEmpty then [] else '|' :: joinCh '|' (ids.map natStrL) ++ ['|']

/-- The reverse parse used by `VectorStore.search` (vector.py lines 90-94):
`entity_ids_str.strip("|").split("|")`, keeping non-empty parts. -/
def decodeEntityIds (s : List Char) : List (List Char) :=
  if s = [] then []
  else (splitCh '|' ((s.dropWhile (· == '|')).rdropWhile (· == '|'))).filter (fun p => p ≠ [])

/-- A record held by the vector index: id, embedding, document and the
metadata written by `VectorStore.upsert` (vector.py lines 47-55). -/
structure VecRecord where
  id : Nat
  embedding : List ℚ
  document : String
  source_id : List Char
  source_type : String
  entity_ids : List Char
  extra : List (String × String)
deriving DecidableEq, Repr

/-- ChromaDB `collection.upsert` keyed by id: replace the record with the same
id if present, else append. -/
def upsertRecord (idx : List VecRecord) (r : VecRecord) : List VecRecord :=
  if idx.any (fun x => x.id == r.id) then idx.map (fun x => if x.id == r.id then r else x)
  else idx ++ [r]

/-- `VectorStore.upsert` (vector.py lines 39-62): reject a chunk with no
embedding (`ValueError`, nothing written — the returned index is unchanged);
otherwise write id, embedding, document and metadata (source id, source type,
encoded entity ids, and the primitive-valued user metadata under `meta_`
keys; in this model all metadata values are already strings). -/
def upsert (idx : List VecRecord) (ch : ChunkRec) : Except String Unit × List VecRecord :=
  match ch.embedding with
  | none => (.error "Chunk must have embedding before upserting", idx)
  | some emb =>
    let r : VecRecord :=
      { id := ch.id
        embedding := emb
        document := ch.text
        source_id := natStrL ch.source_id
        source_type := ch.source_type
        entity_ids := encodeEntityIds ch.entity_ids
        extra := ch.metadata.map (fun kv => ("meta_" ++ kv.1, kv.2)) }
    (.ok (), upsertRecord idx r)

/-! ## Ingestion pipeline (src/src/ingestion/pipeline.py) -/

/-- The value produced by calling an `async def` function without awaiting it:
a coroutine object wrapping the computation that `await` would have run. -/
structure PyCoroutine (α : Type) where
  run : α

/-- pipeline.py lines 78 and 126: `extracted = self.entity_extractor.extract(
chunk_text)` — `EntityExtractor.extract` is `async def` (extractor.py line
99), and the call site does not `await` it, so `extracted` is a coroutine
object, not a list. -/
def extract_unawaited (text : String) (raw : Option JVal) (urls : List UrlMatch)
    (emails : List EmailMatch) (liCompanies liPersons : List SlugMatch) :
    PyCoroutine (Except PyErr (List ExtractedEntity)) :=
  ⟨extract text raw urls emails liCompanies liPersons⟩

/-- Python semantics of `for ext in extracted` when `extracted` is a coroutine
object (pipeline.py line 82): a coroutine is not iterable, so the loop raises
`TypeError` regardless of the value the coroutine would have produced. -/
def iterateCoroutine (_c : PyCoroutine (Except PyErr (List ExtractedEntity))) :
    Except PyErr (List ExtractedEntity) :=
  .error .typeError

/-- The entity-linking accumulation of pipeline.py lines 81-85: link each
mention in order and append its id unless already collected. -/
def linkMentions (s : Store) (acc : List Nat) :
    List ExtractedEntity → Except PyErr (List Nat × Store)
  | [] => .ok (acc, s)
  | e :: rest =>
    match link_entity s e with
    | .error er => .error er
    | .ok (eid, s') => linkMentions s' (if eid ∈ acc then acc else acc ++ [eid]) rest

/-- `RelationalStore.save_chunk` (relational.py lines 198-218). -/
def save_chunk (s : Store) (c : ChunkRec) : Store :=
  { s with chunks := s.chunks ++ [c] }

/-- The per-chunk body of `IngestionPipeline.ingest_interaction` /
`ingest_artifact` (pipeline.py lines 76-99 and 125-142): call the extractor
(without `await`, line 78), iterate the result (line 82), link and
de-duplicate entity ids (lines 81-85), build the `Chunk` with the
pre-computed embedding (lines 88-95), and persist it to storage and the
vector index (lines 98-99). -/
def processChunk (s : Store) (idx : List VecRecord) (chunkText : String) (raw : Option JVal)
    (urls : List UrlMatch) (emails : List EmailMatch) (liCompanies liPersons : List SlugMatch)
    (chunk_id source_id : Nat) (source_type : String) (embedding : List ℚ)
    (metadata : List (String × String)) : Except PyErr (Store × List VecRecord) :=
  let extracted := extract_unawaited chunkText raw urls emails liCompanies liPersons
  match iterateCoroutine extracted with
  | .error e => .error e
  | .ok exts =>
    match linkMentions s [] exts with
    | .error e => .error e
    | .ok (entity_ids, s') =>
      let chunk : ChunkRec :=
        { id := chunk_id, text := chunkText, source_id := source_id,
          source_type := source_type, entity_ids := entity_ids,
          embedding := some embedding, metadata := metadata }
      .ok (save_chunk s' chunk, (upsert idx chunk).2)

/-! ## Retriever (src/src/search/retriever.py, src/src/storage/relational.py) -/

/-- `RelationalStore.get_chunks_by_entity` (relational.py lines 232-246): the
chunks whose entity association contains the id, in insertion order, limited. -/
def get_chunks_by_entity (s : Store) (entity_id : Nat) (limit : Nat) : List ChunkRec :=
  (s.chunks.filter (fun c => c.entity_ids.contains entity_id)).take limit

/-- `RelationalStore.get_company` (relational.py lines 271-274). -/
def get_company (s : Store) (id : Nat) : Option Company :=
  s.companies.find? (fun c => c.id == id)

/-- `SearchResult` (retriever.py lines 10-17), restricted to the fields the
entity-scoped path populates. -/
structure SearchResult where
  chunk : ChunkRec
  score : ℚ
  company : Option Company
deriving DecidableEq, Repr

/-- Modelled from the spec: `Retriever.search_by_company` (retriever.py lines
42-56) raises `NotImplementedError` in the source — only its TODO body, its
callers (api/routes.py line 291) and its tests exist.  Spec §4.5: look up all
chunks whose entity-id list contains the id via Storage
(`get_chunks_by_entity`, default limit 50), attach a fixed relevance score of
1.0 and the resolved entity object. -/
def search_by_company (s : Store) (company_id : Nat) : List SearchResult :=
  (get_chunks_by_entity s company_id 50).map
    (fun c => { chunk := c, score := 1, company := get_company s company_id })

/-! ## Decidability support -/

deriving instance DecidableEq for Except

/-- Is a JSON value an object? -/
def JVal.isObj : JVal → Bool
  | .jobj _ => true
  | _ => false

/-- Uniqueness of the `unique=True` company columns (storage/models.py lines
53-54) over present (non-NULL) values. -/
def companiesUnique (l : List Company) : Prop :=
  l.Pairwise (fun a b =>
    (a.url = none ∨ a.url ≠ b.url) ∧ (a.linkedin_url = none ∨ a.linkedin_url ≠ b.linkedin_url))

/-- Uniqueness of the `unique=True` person columns (storage/models.py lines
64-65) over present (non-NULL) values. -/
def personsUnique (l : List Person) : Prop :=
  l.Pairwise (fun a b =>
    (a.email = none ∨ a.email ≠ b.email) ∧ (a.linkedin_url = none ∨ a.linkedin_url ≠ b.linkedin_url))

/-- The storage invariant of spec §3: at most one company per distinct URL and
professional-network URL, at most one person per distinct email and
professional-network URL. -/
def storeInvariant (s : Store) : Prop :=
  companiesUnique s.companies ∧ personsUnique s.persons

instance (l : List Company) : Decidable (companiesUnique l) := by
  unfold companiesUnique; infer_instance

instance (l : List Person) : Decidable (personsUnique l) := by
  unfold personsUnique; infer_instance

instance (s : Store) : Decidable (storeInvariant s) := by
  unfold storeInvariant; infer_instance

/-! ## Claim C2 (pipeline step behaviour) -/

/-- C2: the claim states that for every ingest call and chunk the orchestrator
extracts mentions, links them into a de-duplicated entity-id list and persists
the chunk.  The source cannot do this: `EntityExtractor.extract` is `async`
but pipeline.py lines 78 and 126 call it without `await`, so the `for` loop at
lines 82/128 iterates a coroutine object and raises `TypeError`.  This theorem
evaluates the embedded per-chunk step: it fails with `TypeError` on every
input, so no chunk is ever persisted. -/
theorem C2_process_chunk_always_type_error
    (s : Store) (idx : List VecRecord) (chunkText : String) (raw : Option JVal)
    (urls : List UrlMatch) (emails : List EmailMatch) (liCompanies liPersons : List SlugMatch)
    (chunk_id source_id : Nat) (source_type : String) (embedding : List ℚ)
    (metadata : List (String × String)) :
    processChunk s idx chunkText raw urls emails liCompanies liPersons
      chunk_id source_id source_type embedding metadata = .error .typeError := rfl

/-! ## Claim C6 (noise stripping) -/

/-- C6 counterexample: the claim says cleaning "Fivetran Series A" yields
exactly "Fivetran" and that "ARR" is rejected outright.  The extractor has no
cleanup step: the classifier name "Fivetran Series A" is returned verbatim,
and "ARR" produces a mention. -/
theorem C6_counterexample :
    (extract "Fivetran Series A"
      (some (.jobj [("companies", .jarr [.jstr "Fivetran Series A"]), ("people", .jarr [])]))
      [] [] [] []).map (List.map ExtractedEntity.text) = .ok ["Fivetran Series A"] ∧
    (extract "ARR"
      (some (.jobj [("companies", .jarr [.jstr "ARR"]), ("people", .jarr [])]))
      [] [] [] []).map (List.map ExtractedEntity.text) = .ok ["ARR"] := by
  exact ⟨by decide, by decide⟩

/-- C6 amended: the extractor applies no code-level cleanup to name-bearing
signals — rejection of non-entity terms and stripping of trailing noise
clauses are delegated to the mention source through its prompt (extractor.py
lines 36-53); the extractor emits each supplied name verbatim.  Each of the
four "Fivetran ..." inputs passes through unchanged, and "ARR", "CTO" and
"Series A" each produce a mention instead of being rejected. -/
theorem C6_no_cleanup_names_pass_verbatim :
    ((extract "m" (some (.jobj [("companies",
        .jarr [.jstr "Fivetran - data infrastructure", .jstr "Fivetran Series A",
               .jstr "Fivetran Q4 Portfolio Update", .jstr "Fivetran - Follow-up thoughts"]),
        ("people", .jarr [])])) [] [] [] []).map (List.map ExtractedEntity.text) =
      .ok ["Fivetran - data infrastructure", "Fivetran Series A",
           "Fivetran Q4 Portfolio Update", "Fivetran - Follow-up thoughts"]) ∧
    ((extract "m" (some (.jobj [("companies",
        .jarr [.jstr "ARR", .jstr "CTO", .jstr "Series A"]), ("people", .jarr [])]))
      [] [] [] []).map (List.map ExtractedEntity.text) = .ok ["ARR", "CTO", "Series A"]) := by
  exact ⟨by decide, by decide⟩

/-! ## Claim C5 (malformed mention-source output) -/

/-- C5 counterexample: the claim says that on malformed mention-source output
(here: output that is parseable as JSON but is not the expected shape — a
bare JSON string) the extract operation does not fail.  It does fail:
`parsed.get(...)` on a non-dict raises an uncaught `AttributeError`
(extractor.py line 85). -/
theorem C5_counterexample :
    extract "" (some (.jstr "oops")) [] [] [] [] = .error .attributeError := rfl

/-- C5 amended: if the raw output is unparseable (or `None`), or parses to a
JSON object whose companies/people entries contribute no valid names, the
extractor degrades to exactly the structured-signal mentions over the same
text; but output parsing to a non-object JSON value raises an uncaught
`AttributeError` — the fallback covers only the parse-failure and
object-shaped cases. -/
theorem C5_degrades_to_structured_only :
    (∀ (text : String) (raw : Option JVal) (urls : List UrlMatch) (emails : List EmailMatch)
       (liCompanies liPersons : List SlugMatch),
       llmParse raw = .ok ([], []) →
       extract text raw urls emails liCompanies liPersons =
         extract text none urls emails liCompanies liPersons) ∧
    (∀ (text : String) (v : JVal) (urls : List UrlMatch) (emails : List EmailMatch)
       (liCompanies liPersons : List SlugMatch),
       v.isObj = false →
       extract text (some v) urls emails liCompanies liPersons = .error .attributeError) := by
  constructor
  · intro text raw urls emails liCompanies liPersons h
    unfold extract
    rw [h]
    rfl
  · intro text v urls emails liCompanies liPersons h
    unfold extract llmParse
    cases v <;> simp_all [JVal.isObj]

/-- C5 witness: the amended theorem applied at concrete inputs — an empty
JSON object degrades to the structured-only result, and a JSON array raises. -/
theorem C5_witness :
    extract "x" (some (.jobj [])) [⟨"https://acme.io", "acme.io", 0, 15⟩] [] [] [] =
      extract "x" none [⟨"https://acme.io", "acme.io", 0, 15⟩] [] [] [] ∧
    extract "x" (some (.jarr [])) [] [] [] [] = .error .attributeError :=
  ⟨C5_degrades_to_structured_only.1 "x" (some (.jobj []))
      [⟨"https://acme.io", "acme.io", 0, 15⟩] [] [] [] rfl,
   C5_degrades_to_structured_only.2 "x" (.jarr []) [] [] [] [] rfl⟩

/-! ## Claim C7 (chunk round-trip / stripping), counterexample -/

/-- C7 counterexample: the claim says a text no longer than the target size
comes back as one chunk equal to the *stripped* input, and that every emitted
chunk is non-empty after stripping.  chunker.py lines 34-35 return the short
input unstripped: a whitespace-only input yields one whitespace chunk, which
is empty after stripping. -/
theorem C7_counterexample :
    chunk_text defaultChunkConfig "   ".data = some ["   ".data] ∧
    pyStrip "   ".data = [] := by
  exact ⟨by decide, by decide⟩

/-! ## Claim C8 (termination), counterexample -/

/-- With `chunk_size = chunk_overlap = 1` and a boundary-free text, one loop
iteration cuts at 4 and moves the window start back to `4 - 4 = 0`: the state
never changes, so no amount of fuel completes the loop. -/
theorem chunkLoop_overlap_eq_size_diverges :
    ∀ fuel, chunkLoop ⟨1, 1, 0⟩ "aaaaaaaa".data fuel 0 = none := by
  intro fuel
  induction fuel with
  | zero => decide
  | succ n ih =>
    have hstep : (chunkStep ⟨1, 1, 0⟩ "aaaaaaaa".data 0).2 = 0 := by decide
    have hlt : 0 < ("aaaaaaaa".data).length := by decide
    rw [chunkLoop, if_pos hlt, hstep, ih]

/-- C8 counterexample: the claim says the advance is clamped so the window
start strictly increases even when `overlap ≥ target_size`, and that the loop
terminates for every configuration.  There is no clamp (chunker.py line 61):
with `chunk_size = chunk_overlap = 1` and the 8-character boundary-free text
"aaaaaaaa", the step leaves the start at 0 and the loop never terminates. -/
theorem C8_counterexample :
    (¬ ∃ fuel cs, chunkLoop ⟨1, 1, 0⟩ "aaaaaaaa".data fuel 0 = some cs) ∧
    (chunkStep ⟨1, 1, 0⟩ "aaaaaaaa".data 0).2 = 0 ∧
    0 < ("aaaaaaaa".data).length := by
  refine ⟨?_, by decide, by decide⟩
  rintro ⟨fuel, cs, h⟩
  rw [chunkLoop_overlap_eq_size_diverges fuel] at h
  cases h

/-! ## Claim C1 (idempotent identity on structured signals), counterexample -/

/-- C1 counterexample: two company mentions carrying the same
professional-network URL can resolve to different entity ids.  From an empty
store: mention "Acme" with URL `u.example.com` creates company 0; mention
"Bolt" with the same URL plus LinkedIn slug `acme` matches company 0 by URL
(the LinkedIn URL is consulted first but matches nothing, and the matched
record is not back-filled with it); mention "Zeta" with only that LinkedIn
slug then matches nothing and creates company 1.  The second and third
mentions share the professional-network URL yet get ids 0 and 1. -/
theorem C1_counterexample :
    link_company ⟨[], [], [], 0⟩ "Acme" (some "https://u.example.com") none =
      .ok (⟨0, "Acme", some "https://u.example.com", none⟩,
           ⟨[⟨0, "Acme", some "https://u.example.com", none⟩], [], [], 1⟩) ∧
    link_company ⟨[⟨0, "Acme", some "https://u.example.com", none⟩], [], [], 1⟩
        "Bolt" (some "https://u.example.com") (some "https://www.linkedin.com/company/acme") =
      .ok (⟨0, "Acme", some "https://u.example.com", none⟩,
           ⟨[⟨0, "Acme", some "https://u.example.com", none⟩], [], [], 1⟩) ∧
    link_company ⟨[⟨0, "Acme", some "https://u.example.com", none⟩], [], [], 1⟩
        "Zeta" none (some "https://www.linkedin.com/company/acme") =
      .ok (⟨1, "Zeta", none, some "https://www.linkedin.com/company/acme"⟩,
           ⟨[⟨0, "Acme", some "https://u.example.com", none⟩,
             ⟨1, "Zeta", none, some "https://www.linkedin.com/company/acme"⟩], [], [], 2⟩) ∧
    (0 : Nat) ≠ 1 := by
  exact ⟨by decide, by decide, by decide, by decide⟩

/-! ## Claim C4 (single-call de-duplication) -/

/-- Every mention emitted by a `dedupScan` run has a lower-cased text that was
not in the incoming seen set. -/
theorem dedupScan_not_mem_seen :
    ∀ (cands : List ExtractedEntity) (seen : List String),
      ∀ m ∈ (dedupScan cands seen).1, pyLower m.text ∉ seen := by
  intro cands
  induction cands with
  | nil => intro seen m hm; simp [dedupScan] at hm
  | cons c rest ih =>
    intro seen m hm
    by_cases h : pyLower c.text ∈ seen
    · rw [dedupScan, if_pos h] at hm
      exact ih seen m hm
    · rw [dedupScan, if_neg h] at hm
      rcases List.mem_cons.mp hm with rfl | hm'
      · exact h
      · have := ih (pyLower c.text :: seen) m hm'
        exact fun hin => this (List.mem_cons_of_mem _ hin)

/-- The mentions emitted by one `dedupScan` run have pairwise distinct
lower-cased texts. -/
theorem dedupScan_pairwise :
    ∀ (cands : List ExtractedEntity) (seen : List String),
      ((dedupScan cands seen).1).Pairwise (fun a b => pyLower a.text ≠ pyLower b.text) := by
  intro cands
  induction cands with
  | nil => intro seen; simp [dedupScan]
  | cons c rest ih =>
    intro seen
    by_cases h : pyLower c.text ∈ seen
    · rw [dedupScan, if_pos h]; exact ih seen
    · rw [dedupScan, if_neg h]
      refine List.Pairwise.cons ?_ (ih _)
      intro b hb hEq
      have := dedupScan_not_mem_seen rest (pyLower c.text :: seen) b hb
      exact this (by rw [← hEq]; exact List.mem_cons_self _ _)

/-- Threading the seen set through two candidate batches equals one scan over
their concatenation. -/
theorem dedupScan_append :
    ∀ (a b : List ExtractedEntity) (seen : List String),
      dedupScan (a ++ b) seen =
        ((dedupScan a seen).1 ++ (dedupScan b (dedupScan a seen).2).1,
         (dedupScan b (dedupScan a seen).2).2) := by
  intro a
  induction a with
  | nil => intro b seen; simp [dedupScan]
  | cons c rest ih =>
    intro b seen
    by_cases h : pyLower c.text ∈ seen
    · simp only [List.cons_append, dedupScan, if_pos h]
      exact ih b seen
    · simp only [List.cons_append, dedupScan, if_neg h, List.append_eq]
      rw [ih b (pyLower c.text :: seen)]

/-- C4: every successful `extract` call returns mentions whose surface names
are pairwise distinct after case-insensitive normalisation, even when the same
name is produced by several signal classes — the six stages (name-bearing
companies, name-bearing people, URL companies, email people, profile-link
companies, profile-link people, in that order) share the running de-dup set. -/
theorem C4_extract_names_pairwise_distinct
    (text : String) (raw : Option JVal) (urls : List UrlMatch) (emails : List EmailMatch)
    (liCompanies liPersons : List SlugMatch) (ms : List ExtractedEntity)
    (h : extract text raw urls emails liCompanies liPersons = .ok ms) :
    ms.Pairwise (fun a b => pyLower a.text ≠ pyLower b.text) := by
  unfold extract at h
  cases hp : llmParse raw with
  | error e => rw [hp] at h; cases h
  | ok pr =>
    obtain ⟨cos, ppl⟩ := pr
    rw [hp] at h
    simp only [Except.ok.injEq] at h
    have hpw := dedupScan_pairwise
      (cos.map (fun n => mkNameMention text n .company) ++
        (ppl.map (fun n => mkNameMention text n .person) ++
          (urlCands urls ++ (emailCands emails ++
            (linkedinCompanyCands liCompanies ++ linkedinPersonCands liPersons))))) []
    simp only [dedupScan_append] at hpw
    rw [← h]
    simp only [List.append_assoc]
    exact hpw

/-- C4 witness: a text where the name-bearing source and the URL pattern both
yield "Novabuild"; the call succeeds and the theorem applies to its result. -/
theorem C4_witness :
    ∃ ms, extract "Check out NovaBuild at https://novabuild.io"
      (some (.jobj [("companies", .jarr [.jstr "Novabuild"]), ("people", .jarr [])]))
      [⟨"https://novabuild.io", "novabuild.io", 23, 43⟩] [] [] [] = .ok ms ∧
      ms.Pairwise (fun a b => pyLower a.text ≠ pyLower b.text) := by
  refine ⟨_, rfl, C4_extract_names_pairwise_distinct
    "Check out NovaBuild at https://novabuild.io"
    (some (.jobj [("companies", .jarr [.jstr "Novabuild"]), ("people", .jarr [])]))
    [⟨"https://novabuild.io", "novabuild.io", 23, 43⟩] [] [] [] _ rfl⟩

/-! ## Lookup characterisations -/

theorem scalarOneOrNone_none {α : Type} {l : List α} (h : scalarOneOrNone l = .ok none) :
    l = [] := by
  cases l with
  | nil => rfl
  | cons a t =>
    cases t with
    | nil => simp [scalarOneOrNone] at h
    | cons b t' => simp [scalarOneOrNone] at h

theorem scalarOneOrNone_some {α : Type} {l : List α} {x : α}
    (h : scalarOneOrNone l = .ok (some x)) : l = [x] := by
  cases l with
  | nil => simp [scalarOneOrNone] at h
  | cons a t =>
    cases t with
    | nil => simp only [scalarOneOrNone, Except.ok.injEq, Option.some.injEq] at h; rw [h]
    | cons b t' => simp [scalarOneOrNone] at h

theorem get_company_by_linkedin_none {s : Store} {L : String}
    (h : get_company_by_linkedin s L = .ok none) :
    ∀ c ∈ s.companies, c.linkedin_url ≠ some L := by
  intro c hc hEq
  have hf := scalarOneOrNone_none h
  have : c ∈ s.companies.filter (fun x => x.linkedin_url == some L) :=
    List.mem_filter.mpr ⟨hc, by simp [hEq]⟩
  rw [hf] at this; cases this

theorem get_company_by_linkedin_some {s : Store} {L : String} {c : Company}
    (h : get_company_by_linkedin s L = .ok (some c)) :
    c ∈ s.companies ∧ c.linkedin_url = some L := by
  have hf := scalarOneOrNone_some h
  have hmem : c ∈ s.companies.filter (fun x => x.linkedin_url == some L) := by
    rw [hf]; exact List.mem_cons_self _ _
  have hm := List.mem_filter.mp hmem
  exact ⟨hm.1, by simpa using hm.2⟩

theorem get_company_by_url_none {s : Store} {U : String}
    (h : get_company_by_url s U = .ok none) :
    ∀ c ∈ s.companies, c.url ≠ some U := by
  intro c hc hEq
  have hf := scalarOneOrNone_none h
  have : c ∈ s.companies.filter (fun x => x.url == some U) :=
    List.mem_filter.mpr ⟨hc, by simp [hEq]⟩
  rw [hf] at this; cases this

theorem get_company_by_url_some {s : Store} {U : String} {c : Company}
    (h : get_company_by_url s U = .ok (some c)) :
    c ∈ s.companies ∧ c.url = some U := by
  have hf := scalarOneOrNone_some h
  have hmem : c ∈ s.companies.filter (fun x => x.url == some U) := by
    rw [hf]; exact List.mem_cons_self _ _
  have hm := List.mem_filter.mp hmem
  exact ⟨hm.1, by simpa using hm.2⟩

theorem get_person_by_linkedin_none {s : Store} {L : String}
    (h : get_person_by_linkedin s L = .ok none) :
    ∀ p ∈ s.persons, p.linkedin_url ≠ some L := by
  intro p hp hEq
  have hf := scalarOneOrNone_none h
  have : p ∈ s.persons.filter (fun x => x.linkedin_url == some L) :=
    List.mem_filter.mpr ⟨hp, by simp [hEq]⟩
  rw [hf] at this; cases this

theorem get_person_by_linkedin_some {s : Store} {L : String} {p : Person}
    (h : get_person_by_linkedin s L = .ok (some p)) :
    p ∈ s.persons ∧ p.linkedin_url = some L := by
  have hf := scalarOneOrNone_some h
  have hmem : p ∈ s.persons.filter (fun x => x.linkedin_url == some L) := by
    rw [hf]; exact List.mem_cons_self _ _
  have hm := List.mem_filter.mp hmem
  exact ⟨hm.1, by simpa using hm.2⟩

theorem get_person_by_email_none {s : Store} {E : String}
    (h : get_person_by_email s E = .ok none) :
    ∀ p ∈ s.persons, p.email ≠ some E := by
  intro p hp hEq
  have hf := scalarOneOrNone_none h
  have : p ∈ s.persons.filter (fun x => x.email == some E) :=
    List.mem_filter.mpr ⟨hp, by simp [hEq]⟩
  rw [hf] at this; cases this

theorem get_person_by_email_some {s : Store} {E : String} {p : Person}
    (h : get_person_by_email s E = .ok (some p)) :
    p ∈ s.persons ∧ p.email = some E := by
  have hf := scalarOneOrNone_some h
  have hmem : p ∈ s.persons.filter (fun x => x.email == some E) := by
    rw [hf]; exact List.mem_cons_self _ _
  have hm := List.mem_filter.mp hmem
  exact ⟨hm.1, by simpa using hm.2⟩

/-! ## Linker resolution-path characterisations -/

theorem link_company_fallback_name_cases {s : Store} {n : String} {u li : Option String}
    {c : Company} {s' : Store}
    (h : link_company_fallback_name s n u li = .ok (c, s')) :
    (c ∈ s.companies ∧ s' = s) ∨
    (c = ⟨s.nextId, n, u, li⟩ ∧ save_company s c = .ok s' ∧
     search_companies_by_name s n = []) := by
  unfold link_company_fallback_name at h
  split at h
  next c0 hh =>
    injection h with h'
    injection h' with h1 h2
    left
    refine ⟨?_, h2.symm⟩
    rw [← h1]
    exact List.filter_subset' _ (List.take_subset _ _ (List.mem_of_mem_head? hh))
  next hh =>
    split at h
    next e hsv => cases h
    next s'' hsv =>
      injection h with h'
      injection h' with h1 h2
      right
      refine ⟨h1.symm, ?_, List.head?_eq_none_iff.mp hh⟩
      rw [← h1, hsv, h2]

theorem link_company_fallback_url_cases {s : Store} {n : String} {u li : Option String}
    {c : Company} {s' : Store}
    (h : link_company_fallback_url s n u li = .ok (c, s')) :
    (c ∈ s.companies ∧ s' = s) ∨
    (c = ⟨s.nextId, n, u, li⟩ ∧ save_company s c = .ok s' ∧
     (∀ U, truthy u = some U → get_company_by_url s U = .ok none) ∧
     search_companies_by_name s n = []) := by
  unfold link_company_fallback_url at h
  split at h
  next U0 htu =>
    split at h
    next e hu => cases h
    next c0 hu =>
      injection h with h'
      injection h' with h1 h2
      left
      exact ⟨h1 ▸ (get_company_by_url_some hu).1, h2.symm⟩
    next hu =>
      rcases link_company_fallback_name_cases h with hl | ⟨h1, h2, h3⟩
      · exact Or.inl hl
      · refine Or.inr ⟨h1, h2, ?_, h3⟩
        intro U hU
        rw [htu] at hU
        injection hU with hU'
        rw [← hU']
        exact hu
  next htu =>
    rcases link_company_fallback_name_cases h with hl | ⟨h1, h2, h3⟩
    · exact Or.inl hl
    · refine Or.inr ⟨h1, h2, ?_, h3⟩
      intro U hU
      rw [htu] at hU
      cases hU

theorem link_company_cases {s : Store} {n : String} {u li : Option String}
    {c : Company} {s' : Store}
    (h : link_company s n u li = .ok (c, s')) :
    (c ∈ s.companies ∧ s' = s) ∨
    (c = ⟨s.nextId, n, u, li⟩ ∧ save_company s c = .ok s' ∧
     (∀ L, truthy li = some L → get_company_by_linkedin s L = .ok none) ∧
     (∀ U, truthy u = some U → get_company_by_url s U = .ok none) ∧
     search_companies_by_name s n = []) := by
  unfold link_company at h
  split at h
  next L0 htl =>
    split at h
    next e hlk => cases h
    next c0 hlk =>
      injection h with h'
      injection h' with h1 h2
      left
      exact ⟨h1 ▸ (get_company_by_linkedin_some hlk).1, h2.symm⟩
    next hlk =>
      rcases link_company_fallback_url_cases h with hl | ⟨h1, h2, h3, h4⟩
      · exact Or.inl hl
      · refine Or.inr ⟨h1, h2, ?_, h3, h4⟩
        intro L hL
        rw [htl] at hL
        injection hL with hL'
        rw [← hL']
        exact hlk
  next htl =>
    rcases link_company_fallback_url_cases h with hl | ⟨h1, h2, h3, h4⟩
    · exact Or.inl hl
    · refine Or.inr ⟨h1, h2, ?_, h3, h4⟩
      intro L hL
      rw [htl] at hL
      cases hL
theorem link_person_fallback_name_cases {s : Store} {n : String} {em li : Option String}
    {p : Person} {s' : Store}
    (h : link_person_fallback_name s n em li = .ok (p, s')) :
    (p ∈ s.persons ∧ s' = s) ∨
    (p = ⟨s.nextId, n, em, li⟩ ∧ save_person s p = .ok s' ∧
     search_people_by_name s n = []) := by
  unfold link_person_fallback_name at h
  split at h
  next p0 hh =>
    injection h with h'
    injection h' with h1 h2
    left
    refine ⟨?_, h2.symm⟩
    rw [← h1]
    exact List.filter_subset' _ (List.take_subset _ _ (List.mem_of_mem_head? hh))
  next hh =>
    split at h
    next e hsv => cases h
    next s'' hsv =>
      injection h with h'
      injection h' with h1 h2
      right
      refine ⟨h1.symm, ?_, List.head?_eq_none_iff.mp hh⟩
      rw [← h1, hsv, h2]

theorem link_person_fallback_email_cases {s : Store} {n : String} {em li : Option String}
    {p : Person} {s' : Store}
    (h : link_person_fallback_email s n em li = .ok (p, s')) :
    (p ∈ s.persons ∧ s' = s) ∨
    (p = ⟨s.nextId, n, em, li⟩ ∧ save_person s p = .ok s' ∧
     (∀ E, truthy em = some E → get_person_by_email s E = .ok none) ∧
     search_people_by_name s n = []) := by
  unfold link_person_fallback_email at h
  split at h
  next E0 hte =>
    split at h
    next e he => cases h
    next p0 he =>
      injection h with h'
      injection h' with h1 h2
      left
      exact ⟨h1 ▸ (get_person_by_email_some he).1, h2.symm⟩
    next he =>
      rcases link_person_fallback_name_cases h with hl | ⟨h1, h2, h3⟩
      · exact Or.inl hl
      · refine Or.inr ⟨h1, h2, ?_, h3⟩
        intro E hE
        rw [hte] at hE
        injection hE with hE'
        rw [← hE']
        exact he
  next hte =>
    rcases link_person_fallback_name_cases h with hl | ⟨h1, h2, h3⟩
    · exact Or.inl hl
    · refine Or.inr ⟨h1, h2, ?_, h3⟩
      intro E hE
      rw [hte] at hE
      cases hE

theorem link_person_cases {s : Store} {n : String} {em li : Option String}
    {p : Person} {s' : Store}
    (h : link_person s n em li = .ok (p, s')) :
    (p ∈ s.persons ∧ s' = s) ∨
    (p = ⟨s.nextId, n, em, li⟩ ∧ save_person s p = .ok s' ∧
     (∀ L, truthy li = some L → get_person_by_linkedin s L = .ok none) ∧
     (∀ E, truthy em = some E → get_person_by_email s E = .ok none) ∧
     search_people_by_name s n = []) := by
  unfold link_person at h
  split at h
  next L0 htl =>
    split at h
    next e hlk => cases h
    next p0 hlk =>
      injection h with h'
      injection h' with h1 h2
      left
      exact ⟨h1 ▸ (get_person_by_linkedin_some hlk).1, h2.symm⟩
    next hlk =>
      rcases link_person_fallback_email_cases h with hl | ⟨h1, h2, h3, h4⟩
      · exact Or.inl hl
      · refine Or.inr ⟨h1, h2, ?_, h3, h4⟩
        intro L hL
        rw [htl] at hL
        injection hL with hL'
        rw [← hL']
        exact hlk
  next htl =>
    rcases link_person_fallback_email_cases h with hl | ⟨h1, h2, h3, h4⟩
    · exact Or.inl hl
    · refine Or.inr ⟨h1, h2, ?_, h3, h4⟩
      intro L hL
      rw [htl] at hL
      cases hL

theorem save_company_ok {s : Store} {c : Company} {s' : Store}
    (h : save_company s c = .ok s') :
    s' = { s with companies := s.companies ++ [c], nextId := s.nextId + 1 } := by
  unfold save_company at h
  split at h
  · cases h
  · injection h with h'
    exact h'.symm

theorem save_person_ok {s : Store} {p : Person} {s' : Store}
    (h : save_person s p = .ok s') :
    s' = { s with persons := s.persons ++ [p], nextId := s.nextId + 1 } := by
  unfold save_person at h
  split at h
  · cases h
  · injection h with h'
    exact h'.symm

theorem link_company_linkedin_hit {s : Store} {L : String} {c : Company}
    (n : String) (u : Option String) (hL : L ≠ "")
    (hc : get_company_by_linkedin s L = .ok (some c)) :
    link_company s n u (some L) = .ok (c, s) := by
  have htr : truthy (some L) = some L := by simp [truthy, hL]
  simp only [link_company, htr, hc]

theorem link_person_linkedin_hit {s : Store} {L : String} {p : Person}
    (n : String) (em : Option String) (hL : L ≠ "")
    (hp : get_person_by_linkedin s L = .ok (some p)) :
    link_person s n em (some L) = .ok (p, s) := by
  have htr : truthy (some L) = some L := by simp [truthy, hL]
  simp only [link_person, htr, hp]

theorem link_person_email_hit {s : Store} {E : String} {p : Person}
    (n : String) (hE : E ≠ "")
    (hp : get_person_by_email s E = .ok (some p)) :
    link_person s n (some E) none = .ok (p, s) := by
  have htr : truthy (some E) = some E := by simp [truthy, hE]
  show link_person_fallback_email s n (some E) none = .ok (p, s)
  simp only [link_person_fallback_email, htr, hp]

theorem get_company_by_linkedin_append {s : Store} {L : String} {c : Company}
    (hnone : ∀ a ∈ s.companies, a.linkedin_url ≠ some L) (hc : c.linkedin_url = some L) :
    get_company_by_linkedin
      { s with companies := s.companies ++ [c], nextId := s.nextId + 1 } L = .ok (some c) := by
  unfold get_company_by_linkedin
  have h1 : s.companies.filter (fun x => x.linkedin_url == some L) = [] :=
    List.filter_eq_nil_iff.mpr (fun a ha => by simp [hnone a ha])
  have h2 : ({ s with companies := s.companies ++ [c], nextId := s.nextId + 1 } : Store).companies
      = s.companies ++ [c] := rfl
  rw [h2, List.filter_append, h1]
  simp [hc, scalarOneOrNone]

theorem get_person_by_linkedin_append {s : Store} {L : String} {p : Person}
    (hnone : ∀ a ∈ s.persons, a.linkedin_url ≠ some L) (hp : p.linkedin_url = some L) :
    get_person_by_linkedin
      { s with persons := s.persons ++ [p], nextId := s.nextId + 1 } L = .ok (some p) := by
  unfold get_person_by_linkedin
  have h1 : s.persons.filter (fun x => x.linkedin_url == some L) = [] :=
    List.filter_eq_nil_iff.mpr (fun a ha => by simp [hnone a ha])
  have h2 : ({ s with persons := s.persons ++ [p], nextId := s.nextId + 1 } : Store).persons
      = s.persons ++ [p] := rfl
  rw [h2, List.filter_append, h1]
  simp [hp, scalarOneOrNone]

theorem get_person_by_email_append {s : Store} {E : String} {p : Person}
    (hnone : ∀ a ∈ s.persons, a.email ≠ some E) (hp : p.email = some E) :
    get_person_by_email
      { s with persons := s.persons ++ [p], nextId := s.nextId + 1 } E = .ok (some p) := by
  unfold get_person_by_email
  have h1 : s.persons.filter (fun x => x.email == some E) = [] :=
    List.filter_eq_nil_iff.mpr (fun a ha => by simp [hnone a ha])
  have h2 : ({ s with persons := s.persons ++ [p], nextId := s.nextId + 1 } : Store).persons
      = s.persons ++ [p] := rfl
  rw [h2, List.filter_append, h1]
  simp [hp, scalarOneOrNone]

theorem c1_company_clause (s : Store) (n₁ n₂ : String) (u₁ u₂ : Option String)
    (L : String) (c : Company) (s' : Store) (hL : L ≠ "")
    (h : link_company s n₁ u₁ (some L) = .ok (c, s')) (hcl : c.linkedin_url = some L) :
    link_company s' n₂ u₂ (some L) = .ok (c, s') := by
  have htr : truthy (some L) = some L := by simp [truthy, hL]
  unfold link_company at h
  split at h
  next L0 heq =>
    have hL0 : L0 = L := by rw [htr] at heq; injection heq with h'; exact h'.symm
    subst hL0
    split at h
    next e hlk => cases h
    next c0 hlk =>
      injection h with h'
      injection h' with h1 h2
      rw [← h2]
      rw [h1] at hlk
      exact link_company_linkedin_hit n₂ u₂ hL hlk
    next hlk =>
      rcases link_company_fallback_url_cases h with ⟨hmem, rfl⟩ | ⟨h1, h2, _, _⟩
      · exact absurd hcl (get_company_by_linkedin_none hlk c hmem)
      · have hs' := save_company_ok h2
        subst hs'
        exact link_company_linkedin_hit n₂ u₂ hL
          (get_company_by_linkedin_append (get_company_by_linkedin_none hlk) hcl)
  next heq => rw [htr] at heq; cases heq

theorem c1_person_linkedin_clause (s : Store) (n₁ n₂ : String) (em₁ em₂ : Option String)
    (L : String) (p : Person) (s' : Store) (hL : L ≠ "")
    (h : link_person s n₁ em₁ (some L) = .ok (p, s')) (hpl : p.linkedin_url = some L) :
    link_person s' n₂ em₂ (some L) = .ok (p, s') := by
  have htr : truthy (some L) = some L := by simp [truthy, hL]
  unfold link_person at h
  split at h
  next L0 heq =>
    have hL0 : L0 = L := by rw [htr] at heq; injection heq with h'; exact h'.symm
    subst hL0
    split at h
    next e hlk => cases h
    next p0 hlk =>
      injection h with h'
      injection h' with h1 h2
      rw [← h2]
      rw [h1] at hlk
      exact link_person_linkedin_hit n₂ em₂ hL hlk
    next hlk =>
      rcases link_person_fallback_email_cases h with ⟨hmem, rfl⟩ | ⟨h1, h2, _, _⟩
      · exact absurd hpl (get_person_by_linkedin_none hlk p hmem)
      · have hs' := save_person_ok h2
        subst hs'
        exact link_person_linkedin_hit n₂ em₂ hL
          (get_person_by_linkedin_append (get_person_by_linkedin_none hlk) hpl)
  next heq => rw [htr] at heq; cases heq

theorem c1_person_email_clause (s : Store) (n₁ n₂ : String)
    (E : String) (p : Person) (s' : Store) (hE : E ≠ "")
    (h : link_person s n₁ (some E) none = .ok (p, s')) (hpe : p.email = some E) :
    link_person s' n₂ (some E) none = .ok (p, s') := by
  have htr : truthy (some E) = some E := by simp [truthy, hE]
  have h' : link_person_fallback_email s n₁ (some E) none = .ok (p, s') := h
  unfold link_person_fallback_email at h'
  split at h'
  next E0 heq =>
    have hE0 : E0 = E := by rw [htr] at heq; injection heq with hq; exact hq.symm
    subst hE0
    split at h'
    next e he => cases h'
    next p0 he =>
      injection h' with hq
      injection hq with h1 h2
      rw [← h2]
      rw [h1] at he
      exact link_person_email_hit n₂ hE he
    next he =>
      rcases link_person_fallback_name_cases h' with ⟨hmem, rfl⟩ | ⟨h1, h2, _⟩
      · exact absurd hpe (get_person_by_email_none he p hmem)
      · have hs' := save_person_ok h2
        subst hs'
        exact link_person_email_hit n₂ hE
          (get_person_by_email_append (get_person_by_email_none he) hpe)
  next heq => rw [htr] at heq; cases heq

/-- C1 amended: linking two mentions that carry the same non-empty structured
identifier yields the same entity id *provided* the entity resolved for the
first mention itself carries that identifier — which holds exactly when the
first mention was resolved by that identifier's lookup or freshly created.
(If the first mention instead matched an existing record through a
lower-priority key — canonical URL or name — the matched record is not
back-filled with the identifier, and a later mention carrying only that
identifier can create a distinct entity, as the counterexample shows.)
Clauses: (1) company mentions sharing a professional-network URL; (2) person
mentions sharing a professional-network URL; (3) person mentions sharing an
email, neither carrying a professional-network URL (which is consulted with
higher priority); (4) resolution consults the structured identifier before
any name-based search or creation — a professional-network URL lookup hit is
returned as-is with the store unchanged. -/
theorem C1_structured_identity :
    (∀ (s : Store) (n₁ n₂ : String) (u₁ u₂ : Option String) (L : String)
       (c : Company) (s' : Store),
       L ≠ "" → link_company s n₁ u₁ (some L) = .ok (c, s') → c.linkedin_url = some L →
       link_company s' n₂ u₂ (some L) = .ok (c, s')) ∧
    (∀ (s : Store) (n₁ n₂ : String) (em₁ em₂ : Option String) (L : String)
       (p : Person) (s' : Store),
       L ≠ "" → link_person s n₁ em₁ (some L) = .ok (p, s') → p.linkedin_url = some L →
       link_person s' n₂ em₂ (some L) = .ok (p, s')) ∧
    (∀ (s : Store) (n₁ n₂ : String) (E : String) (p : Person) (s' : Store),
       E ≠ "" → link_person s n₁ (some E) none = .ok (p, s') → p.email = some E →
       link_person s' n₂ (some E) none = .ok (p, s')) ∧
    (∀ (s : Store) (n : String) (u : Option String) (L : String) (c : Company),
       L ≠ "" → get_company_by_linkedin s L = .ok (some c) →
       link_company s n u (some L) = .ok (c, s)) :=
  ⟨c1_company_clause, c1_person_linkedin_clause, c1_person_email_clause,
   fun _ n u _ _ hL hc => link_company_linkedin_hit n u hL hc⟩

/-- C1 witness: from the empty store, link "A" with LinkedIn URL "x" (creates
company 0, which carries the URL), then link "B" with the same URL — the
theorem returns the same company id 0 with the store unchanged. -/
theorem C1_witness :
    link_company ⟨[⟨0, "A", none, some "x"⟩], [], [], 1⟩ "B" none (some "x") =
      .ok (⟨0, "A", none, some "x"⟩, ⟨[⟨0, "A", none, some "x"⟩], [], [], 1⟩) :=
  C1_structured_identity.1 ⟨[], [], [], 0⟩ "A" "B" none none "x"
    ⟨0, "A", none, some "x"⟩ ⟨[⟨0, "A", none, some "x"⟩], [], [], 1⟩
    (by decide) (by decide) rfl

/-! ## Claim C3 -/

theorem save_company_fresh {s : Store} {c : Company} {s' : Store}
    (h : save_company s c = .ok s') :
    ∀ a ∈ s.companies,
      (a.url = none ∨ a.url ≠ c.url) ∧ (a.linkedin_url = none ∨ a.linkedin_url ≠ c.linkedin_url) := by
  unfold save_company at h
  split at h
  · cases h
  · next hcond =>
    push_neg at hcond
    obtain ⟨hu, hl⟩ := hcond
    intro a ha
    constructor
    · by_cases heq : a.url = c.url
      · by_cases hnone : c.url = none
        · left; rw [heq]; exact hnone
        · exfalso
          have hany := hu hnone
          have : s.companies.any (fun x => x.url == c.url) = true :=
            List.any_eq_true.mpr ⟨a, ha, by simp [heq]⟩
          simp [this] at hany
      · right; exact heq
    · by_cases heq : a.linkedin_url = c.linkedin_url
      · by_cases hnone : c.linkedin_url = none
        · left; rw [heq]; exact hnone
        · exfalso
          have hany := hl hnone
          have : s.companies.any (fun x => x.linkedin_url == c.linkedin_url) = true :=
            List.any_eq_true.mpr ⟨a, ha, by simp [heq]⟩
          simp [this] at hany
      · right; exact heq

theorem save_person_fresh {s : Store} {p : Person} {s' : Store}
    (h : save_person s p = .ok s') :
    ∀ a ∈ s.persons,
      (a.email = none ∨ a.email ≠ p.email) ∧
      (a.linkedin_url = none ∨ a.linkedin_url ≠ p.linkedin_url) := by
  unfold save_person at h
  split at h
  · cases h
  · next hcond =>
    push_neg at hcond
    obtain ⟨he, hl⟩ := hcond
    intro a ha
    constructor
    · by_cases heq : a.email = p.email
      · by_cases hnone : p.email = none
        · left; rw [heq]; exact hnone
        · exfalso
          have hany := he hnone
          have : s.persons.any (fun x => x.email == p.email) = true :=
            List.any_eq_true.mpr ⟨a, ha, by simp [heq]⟩
          simp [this] at hany
      · right; exact heq
    · by_cases heq : a.linkedin_url = p.linkedin_url
      · by_cases hnone : p.linkedin_url = none
        · left; rw [heq]; exact hnone
        · exfalso
          have hany := hl hnone
          have : s.persons.any (fun x => x.linkedin_url == p.linkedin_url) = true :=
            List.any_eq_true.mpr ⟨a, ha, by simp [heq]⟩
          simp [this] at hany
      · right; exact heq

/-- C3: starting from a storage state satisfying the uniqueness invariant
(no two companies share a URL or professional-network URL, no two persons
share an email or professional-network URL, over present values), every
single successful link operation preserves the invariant, and whenever the
store changed (an entity was created) the lookups for each structured
identifier the mention carried had returned no match, and the name search
had returned no rows. -/
theorem C3_link_preserves_uniqueness :
    ∀ s : Store, storeInvariant s →
      (∀ (n : String) (u li : Option String) (c : Company) (s' : Store),
         link_company s n u li = .ok (c, s') →
         storeInvariant s' ∧
         (s' ≠ s →
           (∀ L, truthy li = some L → get_company_by_linkedin s L = .ok none) ∧
           (∀ U, truthy u = some U → get_company_by_url s U = .ok none) ∧
           search_companies_by_name s n = [])) ∧
      (∀ (n : String) (em li : Option String) (p : Person) (s' : Store),
         link_person s n em li = .ok (p, s') →
         storeInvariant s' ∧
         (s' ≠ s →
           (∀ L, truthy li = some L → get_person_by_linkedin s L = .ok none) ∧
           (∀ E, truthy em = some E → get_person_by_email s E = .ok none) ∧
           search_people_by_name s n = [])) := by
  intro s hinv
  constructor
  · intro n u li c s' h
    rcases link_company_cases h with ⟨_, rfl⟩ | ⟨h1, h2, h3, h4, h5⟩
    · exact ⟨hinv, fun hne => absurd rfl hne⟩
    · have hfresh := save_company_fresh h2
      have hs' := save_company_ok h2
      subst hs'
      refine ⟨⟨?_, hinv.2⟩, fun _ => ⟨h3, h4, h5⟩⟩
      refine List.pairwise_append.mpr ⟨hinv.1, by simp, ?_⟩
      intro a ha b hb
      rw [List.mem_singleton] at hb
      subst hb
      exact hfresh a ha
  · intro n em li p s' h
    rcases link_person_cases h with ⟨_, rfl⟩ | ⟨h1, h2, h3, h4, h5⟩
    · exact ⟨hinv, fun hne => absurd rfl hne⟩
    · have hfresh := save_person_fresh h2
      have hs' := save_person_ok h2
      subst hs'
      refine ⟨⟨hinv.1, ?_⟩, fun _ => ⟨h3, h4, h5⟩⟩
      refine List.pairwise_append.mpr ⟨hinv.2, by simp, ?_⟩
      intro a ha b hb
      rw [List.mem_singleton] at hb
      subst hb
      exact hfresh a ha

/-- C3 witness: a one-company store satisfies the invariant; linking a fresh
mention "Zeta" with no structured identifiers creates company 1, the invariant
still holds, and the name search on the pre-state was indeed empty. -/
theorem C3_witness :
    storeInvariant ⟨[⟨0, "Acme", some "u", none⟩, ⟨1, "Zeta", none, none⟩], [], [], 2⟩ ∧
    search_companies_by_name ⟨[⟨0, "Acme", some "u", none⟩], [], [], 1⟩ "Zeta" = [] :=
  ⟨(((C3_link_preserves_uniqueness ⟨[⟨0, "Acme", some "u", none⟩], [], [], 1⟩ (by decide)).1
      "Zeta" none none ⟨1, "Zeta", none, none⟩
      ⟨[⟨0, "Acme", some "u", none⟩, ⟨1, "Zeta", none, none⟩], [], [], 2⟩ (by decide))).1,
   ((((C3_link_preserves_uniqueness ⟨[⟨0, "Acme", some "u", none⟩], [], [], 1⟩ (by decide)).1
      "Zeta" none none ⟨1, "Zeta", none, none⟩
      ⟨[⟨0, "Acme", some "u", none⟩, ⟨1, "Zeta", none, none⟩], [], [], 2⟩ (by decide))).2
      (by decide)).2.2⟩

/-! ## Claim C7, amended theorem -/

/-- A list fixed by `dropWhile` has a head not satisfying the predicate. -/
theorem dropWhile_cons_self_not {p : Char → Bool} {a : Char} {z : List Char}
    (h : (a :: z).dropWhile p = a :: z) : ¬ p a := by
  intro hpa
  rw [List.dropWhile_cons, if_pos hpa] at h
  have h1 : (z.dropWhile p).length ≤ z.length := (List.dropWhile_suffix p).sublist.length_le
  have h2 := congrArg List.length h
  simp at h2
  omega

/-- Python `strip` is idempotent. -/
theorem pyStrip_idem (l : List Char) : pyStrip (pyStrip l) = pyStrip l := by
  unfold pyStrip
  have hyy : (l.dropWhile pyWs).dropWhile pyWs = l.dropWhile pyWs :=
    List.dropWhile_idempotent pyWs l
  have hx : ((l.dropWhile pyWs).rdropWhile pyWs).dropWhile pyWs
      = (l.dropWhile pyWs).rdropWhile pyWs := by
    obtain ⟨t, ht⟩ := List.rdropWhile_prefix pyWs (l.dropWhile pyWs)
    cases hcase : (l.dropWhile pyWs).rdropWhile pyWs with
    | nil => simp
    | cons a as =>
      rw [hcase] at ht
      have hya : l.dropWhile pyWs = a :: (as ++ t) := by rw [← ht]; simp
      have hna : ¬ pyWs a := by
        apply dropWhile_cons_self_not (z := as ++ t)
        rw [← hya]
        exact hyy
      rw [List.dropWhile_cons, if_neg hna]
  rw [hx, List.rdropWhile_idempotent]

/-- Every chunk the windowing loop returns was stripped on emission and kept
only if non-empty. -/
theorem chunkLoop_chunks (cfg : ChunkConfig) (text : List Char) :
    ∀ (fuel start : Nat) (cs : List (List Char)),
      chunkLoop cfg text fuel start = some cs →
      ∀ c ∈ cs, c ≠ [] ∧ pyStrip c = c := by
  intro fuel
  induction fuel with
  | zero =>
    intro start cs h
    unfold chunkLoop at h
    split at h
    · cases h
    · injection h with h'
      subst h'
      intro c hc
      cases hc
  | succ n ih =>
    intro start cs h
    unfold chunkLoop at h
    split at h
    · cases hr : chunkLoop cfg text n (chunkStep cfg text start).2 with
      | none => rw [hr] at h; cases h
      | some cs' =>
        rw [hr] at h
        injection h with h'
        subst h'
        intro c hc
        by_cases he : (chunkStep cfg text start).1.isEmpty
        · rw [if_pos he] at hc
          exact ih _ _ hr c hc
        · rw [if_neg he] at hc
          rcases List.mem_cons.mp hc with rfl | hc'
          · refine ⟨fun hnil => he (by rw [hnil]; rfl), ?_⟩
            show pyStrip (chunkStep cfg text start).1 = (chunkStep cfg text start).1
            unfold chunkStep
            exact pyStrip_idem _
          · exact ih _ _ hr c hc'
    · injection h with h'
      subst h'
      intro c hc
      cases hc

/-- C7 amended: a text no longer than the character target size is returned
as a single chunk equal to the *raw* input (chunker.py lines 34-35 do not
strip it — a whitespace-only short input comes back as one whitespace chunk,
per the counterexample); every chunk emitted by the windowing loop for longer
texts is stripped and non-empty (lines 57-59). -/
theorem C7_short_input_and_stripped_chunks :
    (∀ (cfg : ChunkConfig) (text : List Char),
       text.length ≤ charSize cfg → chunk_text cfg text = some [text]) ∧
    (∀ (cfg : ChunkConfig) (text : List Char) (fuel start : Nat) (cs : List (List Char)),
       chunkLoop cfg text fuel start = some cs →
       ∀ c ∈ cs, c ≠ [] ∧ pyStrip c = c) := by
  constructor
  · intro cfg text hlen
    unfold chunk_text
    rw [if_pos hlen]
  · exact fun cfg text => chunkLoop_chunks cfg text

/-- C7 witness: the short path at "hi" with the default configuration, and
the loop-path property at a boundary-free text chunked with size 4 and no
overlap. -/
theorem C7_witness :
    chunk_text defaultChunkConfig "hi".data = some ["hi".data] ∧
    ("aaaa".data ≠ [] ∧ pyStrip "aaaa".data = "aaaa".data) :=
  ⟨C7_short_input_and_stripped_chunks.1 defaultChunkConfig "hi".data (by decide),
   C7_short_input_and_stripped_chunks.2 ⟨1, 0, 0⟩ "aaaaaaaa".data 9 0
     ["aaaa".data, "aaaa".data] (by decide) "aaaa".data (by decide)⟩

/-! ## Claim C8, amended theorem -/

/-- Any cut chosen by the sentence-separator loop lies strictly beyond the
minimum-size mark. -/
theorem sentCutAux_gt {text : List Char} {s e0 minEnd : Nat} {seps : List (List Char)} {e : Nat}
    (h : sentCutAux text s e0 minEnd seps = some e) : minEnd < e := by
  induction seps with
  | nil => cases h
  | cons sep rest ih =>
    unfold sentCutAux at h
    split at h
    next sb hsb =>
      split at h
      next hcond =>
        injection h with h'
        omega
      next => exact ih h
    next => exact ih h

/-- Under `overlap < size` and `overlap ≤ min size` (character units), every
cut lies strictly beyond `start + overlap`, so the window start strictly
increases.  Without these bounds there is no clamp — see the counterexample. -/
theorem cutEnd_advance (cfg : ChunkConfig) (text : List Char) (start : Nat)
    (h1 : charOverlap cfg < charSize cfg) (h2 : charOverlap cfg ≤ minCharSize cfg) :
    start + charOverlap cfg < cutEnd cfg text start := by
  simp only [cutEnd]
  split
  · split
    next pb hpb =>
      split
      next hcond => omega
      next =>
        cases hsc : sentCutAux text start (start + charSize cfg) (start + minCharSize cfg) sentSeps with
        | some e =>
          have := sentCutAux_gt hsc
          simp
          omega
        | none => simp; omega
    next =>
      cases hsc : sentCutAux text start (start + charSize cfg) (start + minCharSize cfg) sentSeps with
      | some e =>
        have := sentCutAux_gt hsc
        simp
        omega
      | none => simp; omega
  · omega

/-- With an advancing window, fuel equal to the remaining length suffices. -/
theorem chunkLoop_term (cfg : ChunkConfig) (text : List Char)
    (h1 : charOverlap cfg < charSize cfg) (h2 : charOverlap cfg ≤ minCharSize cfg) :
    ∀ (fuel start : Nat), text.length ≤ start + fuel → (chunkLoop cfg text fuel start).isSome := by
  intro fuel
  induction fuel with
  | zero =>
    intro start hle
    unfold chunkLoop
    rw [if_neg (by omega)]
    simp
  | succ n ih =>
    intro start hle
    unfold chunkLoop
    split
    next hs =>
      have hadv := cutEnd_advance cfg text start h1 h2
      have hnext : start + 1 ≤ (chunkStep cfg text start).2 := by
        simp only [chunkStep]
        omega
      have hle' : text.length ≤ (chunkStep cfg text start).2 + n := by omega
      have hsome := ih _ hle'
      cases hr : chunkLoop cfg text n (chunkStep cfg text start).2 with
      | none => rw [hr] at hsome; simp at hsome
      | some cs => simp
    next => simp

/-- C8 amended: there is no clamp on the window advance (chunker.py line 61);
`segment` terminates on every input whenever the configured overlap is
smaller than the chunk size and at most the minimum chunk size (the default
configuration satisfies both).  When `overlap ≥ chunk_size` the start does
not advance and the loop runs forever (see the counterexample); boundary-free
inputs still terminate through the hard cut under the stated bounds. -/
theorem C8_terminates_when_overlap_small (cfg : ChunkConfig) (text : List Char)
    (h1 : cfg.chunk_overlap < cfg.chunk_size) (h2 : cfg.chunk_overlap ≤ cfg.min_chunk_size) :
    ∃ cs, chunk_text cfg text = some cs := by
  unfold chunk_text
  split
  · exact ⟨[text], rfl⟩
  · have hc1 : charOverlap cfg < charSize cfg := by
      unfold charOverlap charSize; omega
    have hc2 : charOverlap cfg ≤ minCharSize cfg := by
      unfold charOverlap minCharSize; omega
    have hsome := chunkLoop_term cfg text hc1 hc2 (text.length + 1) 0 (by omega)
    cases hr : chunkLoop cfg text (text.length + 1) 0 with
    | none => rw [hr] at hsome; simp at hsome
    | some cs => exact ⟨cs, rfl⟩

/-- C8 witness: the default configuration satisfies both bounds, so chunking
a concrete long boundary-free text terminates. -/
theorem C8_witness :
    ∃ cs, chunk_text ⟨1, 0, 0⟩ "aaaaaaaa".data = some cs :=
  C8_terminates_when_overlap_small ⟨1, 0, 0⟩ "aaaaaaaa".data (by decide) (by decide)

/-! ## Claim C9 (entity-scoped retrieval, modelled from the spec) -/

/-- C9: every result of entity-scoped retrieval carries a relevance score of
exactly 1.0, its chunk's entity-id list contains the queried id, and the
resolved entity object is attached; conversely every stored chunk containing
the id is returned (whenever the match set fits the storage-call limit of 50
that `get_chunks_by_entity` applies). -/
theorem C9_entity_scoped_retrieval (s : Store) (cid : Nat) :
    (∀ r ∈ search_by_company s cid,
       r.score = 1 ∧ cid ∈ r.chunk.entity_ids ∧ r.company = get_company s cid) ∧
    (∀ c ∈ s.chunks, cid ∈ c.entity_ids →
       (s.chunks.filter (fun ch => ch.entity_ids.contains cid)).length ≤ 50 →
       ∃ r ∈ search_by_company s cid, r.chunk = c) := by
  constructor
  · intro r hr
    unfold search_by_company get_chunks_by_entity at hr
    obtain ⟨c, hc, rfl⟩ := List.mem_map.mp hr
    refine ⟨rfl, ?_, rfl⟩
    have hmem := List.mem_filter.mp (List.take_subset _ _ hc)
    simpa using hmem.2
  · intro c hc hm hlen
    have hcf : c ∈ s.chunks.filter (fun ch => ch.entity_ids.contains cid) :=
      List.mem_filter.mpr ⟨hc, by simpa using hm⟩
    have htake : (s.chunks.filter (fun ch => ch.entity_ids.contains cid)).take 50 =
        s.chunks.filter (fun ch => ch.entity_ids.contains cid) :=
      List.take_of_length_le hlen
    refine ⟨⟨c, 1, get_company s cid⟩, ?_, rfl⟩
    unfold search_by_company get_chunks_by_entity
    rw [htake]
    exact List.mem_map.mpr ⟨c, hcf, rfl⟩

/-- C9 witness: a store with one company and one chunk linked to it — the
chunk is returned with score 1 and membership, by the theorem. -/
theorem C9_witness :
    ∃ r, r ∈ search_by_company
        ⟨[⟨0, "NovaBuild", none, none⟩], [], [⟨7, "platform notes", 3, "email", [0], none, []⟩], 1⟩ 0 ∧
      r.chunk = ⟨7, "platform notes", 3, "email", [0], none, []⟩ ∧ r.score = 1 ∧
      0 ∈ r.chunk.entity_ids := by
  obtain ⟨r, hr, hc⟩ :=
    (C9_entity_scoped_retrieval
      ⟨[⟨0, "NovaBuild", none, none⟩], [], [⟨7, "platform notes", 3, "email", [0], none, []⟩], 1⟩ 0).2
      ⟨7, "platform notes", 3, "email", [0], none, []⟩ (by decide) (by decide) (by decide)
  obtain ⟨h1, h2, _⟩ :=
    (C9_entity_scoped_retrieval
      ⟨[⟨0, "NovaBuild", none, none⟩], [], [⟨7, "platform notes", 3, "email", [0], none, []⟩], 1⟩ 0).1 r hr
  exact ⟨r, hr, hc, h1, h2⟩

/-! ## Claim C10 (vector upsert embedding guard) -/

theorem natDigits_ne_nil (n : Nat) : natDigits n ≠ [] := by
  rw [natDigits]
  split <;> simp

theorem natDigits_lt (n : Nat) : ∀ d ∈ natDigits n, d < 10 := by
  induction n using Nat.strong_induction_on with
  | _ n ih =>
    rw [natDigits]
    split
    next h => intro d hd; rw [List.mem_singleton] at hd; omega
    next h =>
      intro d hd
      rcases List.mem_append.mp hd with h1 | h2
      · exact ih (n / 10) (Nat.div_lt_self (by omega) (by omega)) d h1
      · rw [List.mem_singleton] at h2; subst h2; exact Nat.mod_lt _ (by omega)

theorem digitChar_ne_pipe {d : Nat} (h : d < 10) : digitChar d ≠ '|' := by
  interval_cases d <;> decide

theorem natStrL_ne_nil (n : Nat) : natStrL n ≠ [] := by
  unfold natStrL
  simp [natDigits_ne_nil]

theorem natStrL_no_pipe (n : Nat) : ∀ c ∈ natStrL n, c ≠ '|' := by
  intro c hc
  obtain ⟨d, hd, rfl⟩ := List.mem_map.mp hc
  exact digitChar_ne_pipe (natDigits_lt n d hd)

theorem splitCh_no_delim {d : Char} : ∀ {x : List Char}, (∀ c ∈ x, c ≠ d) → splitCh d x = [x] := by
  intro x
  induction x with
  | nil => intro _; rfl
  | cons a t ih =>
    intro h
    have ha : a ≠ d := h a (List.mem_cons_self _ _)
    rw [splitCh, if_neg ha, ih (fun c hc => h c (List.mem_cons_of_mem _ hc))]

theorem splitCh_append_delim {d : Char} :
    ∀ {x t : List Char}, (∀ c ∈ x, c ≠ d) → splitCh d (x ++ d :: t) = x :: splitCh d t := by
  intro x
  induction x with
  | nil => intro t _; simp [splitCh]
  | cons a y ih =>
    intro t h
    have ha : a ≠ d := h a (List.mem_cons_self _ _)
    have := ih (t := t) (fun c hc => h c (List.mem_cons_of_mem _ hc))
    rw [List.cons_append, splitCh, if_neg ha, this]

theorem splitCh_joinCh {d : Char} :
    ∀ {xs : List (List Char)}, xs ≠ [] → (∀ x ∈ xs, ∀ c ∈ x, c ≠ d) →
      splitCh d (joinCh d xs) = xs := by
  intro xs
  induction xs with
  | nil => intro h _; exact absurd rfl h
  | cons x rest ih =>
    intro _ h
    cases rest with
    | nil =>
      show splitCh d (joinCh d [x]) = [x]
      rw [joinCh]
      exact splitCh_no_delim (h x (List.mem_cons_self _ _))
    | cons y r =>
      rw [joinCh, splitCh_append_delim (h x (List.mem_cons_self _ _)),
        ih (by simp) (fun z hz c hc => h z (List.mem_cons_of_mem _ hz) c hc)]

theorem joinCh_snoc {d : Char} :
    ∀ (ys : List (List Char)) (x : List Char), ys ≠ [] →
      joinCh d (ys ++ [x]) = joinCh d ys ++ d :: x := by
  intro ys
  induction ys with
  | nil => intro x h; exact absurd rfl h
  | cons y z ih =>
    intro x _
    cases z with
    | nil => rfl
    | cons w r =>
      have h2 := ih x (by simp)
      show joinCh d (y :: (w :: r ++ [x])) = joinCh d (y :: w :: r) ++ d :: x
      simp only [joinCh, List.append_eq]
      rw [← List.cons_append, h2]
      simp [List.append_assoc]

theorem joinCh_head_cons {d a : Char} {x : List Char} (rest : List (List Char)) :
    ∃ z, joinCh d ((a :: x) :: rest) = a :: z := by
  cases rest with
  | nil => exact ⟨x, rfl⟩
  | cons y r => exact ⟨x ++ d :: joinCh d (y :: r), by rw [joinCh]; rfl⟩

theorem rdropWhile_eq_self_of_getLast? {p : Char → Bool} {l : List Char} {a : Char}
    (h : l.getLast? = some a) (hpa : p a = false) : l.rdropWhile p = l := by
  rw [List.rdropWhile_eq_self_iff]
  intro hl
  rw [List.getLast?_eq_getLast_of_ne_nil hl] at h
  injection h with h'
  rw [h']
  simp [hpa]

/-- The entity-id encoding written by `upsert` (vector.py line 45) parses
back, by the scheme `search` uses (vector.py lines 90-94), to exactly the
chunk's entity-id strings. -/
theorem decode_encode_entity_ids (ids : List Nat) :
    decodeEntityIds (encodeEntityIds ids) = ids.map natStrL := by
  cases ids with
  | nil => rfl
  | cons i rest =>
    have hnopipe : ∀ x ∈ (i :: rest).map natStrL, ∀ c ∈ x, c ≠ '|' := by
      intro x hx
      obtain ⟨m, _, rfl⟩ := List.mem_map.mp hx
      exact natStrL_no_pipe m
    have hne : ∀ x ∈ (i :: rest).map natStrL, x ≠ [] := by
      intro x hx
      obtain ⟨m, _, rfl⟩ := List.mem_map.mp hx
      exact natStrL_ne_nil m
    unfold encodeEntityIds
    rw [if_neg (by simp)]
    unfold decodeEntityIds
    rw [if_neg (by simp)]
    set J := joinCh '|' ((i :: rest).map natStrL) with hJ
    obtain ⟨a, z, haz⟩ : ∃ a z, natStrL i = a :: z := by
      cases hns : natStrL i with
      | nil => exact absurd hns (natStrL_ne_nil i)
      | cons a z => exact ⟨a, z, rfl⟩
    obtain ⟨w, hw⟩ := joinCh_head_cons (d := '|') (a := a) (x := z) (rest.map natStrL)
    have hJcons : J = a :: w := by
      rw [hJ, List.map_cons, haz, hw]
    have hane : (a == '|') = false := by
      have ha : a ∈ natStrL i := by rw [haz]; exact List.mem_cons_self _ _
      simpa using natStrL_no_pipe i a ha
    have h1 : (('|' :: (J ++ ['|'])).dropWhile (· == '|')) = (J ++ ['|']).dropWhile (· == '|') := by
      simp [List.dropWhile_cons]
    have h2 : (J ++ ['|']).dropWhile (· == '|') = J ++ ['|'] := by
      rw [hJcons]
      simp [List.dropWhile_cons, hane]
    have h3 : (J ++ ['|']).rdropWhile (· == '|') = J.rdropWhile (· == '|') :=
      List.rdropWhile_concat_pos (· == '|') J '|' (by simp)
    have h4 : J.rdropWhile (· == '|') = J := by
      obtain ⟨ys, m, hys⟩ : ∃ ys m, i :: rest = ys ++ [m] := by
        rcases List.eq_nil_or_concat (i :: rest) with hnil | ⟨ys, m, hc⟩
        · cases hnil
        · exact ⟨ys, m, by simpa [List.concat_eq_append] using hc⟩
      obtain ⟨b, hb⟩ : ∃ b, (natStrL m).getLast? = some b := by
        cases hgl : (natStrL m).getLast? with
        | none => exact absurd (List.getLast?_eq_none_iff.mp hgl) (natStrL_ne_nil m)
        | some b => exact ⟨b, rfl⟩
      have hbmem : b ∈ natStrL m := by
        obtain ⟨hhh, hbe⟩ := List.mem_getLast?_eq_getLast (l := natStrL m) (x := b) (by rw [hb]; rfl)
        rw [hbe]
        exact List.getLast_mem hhh
      have hbne : (b == '|') = false := by simpa using natStrL_no_pipe m b hbmem
      by_cases hy : ys = []
      · subst hy
        have : (i :: rest) = [m] := hys
        rw [hJ, this]
        exact rdropWhile_eq_self_of_getLast? (by simpa [joinCh] using hb) hbne
      · have hysm : ys.map natStrL ≠ [] := by simpa using hy
        have hJsnoc : J = joinCh '|' (ys.map natStrL) ++ '|' :: natStrL m := by
          rw [hJ, hys, List.map_append, List.map_singleton, joinCh_snoc _ _ hysm]
        have hlast : J.getLast? = some b := by
          rw [hJsnoc, List.getLast?_append_of_ne_nil _ (by simp),
            show ('|' :: natStrL m) = ['|'] ++ natStrL m from rfl,
            List.getLast?_append_of_ne_nil _ (natStrL_ne_nil m)]
          exact hb
        exact rdropWhile_eq_self_of_getLast? hlast hbne
    have h5 : splitCh '|' J = (i :: rest).map natStrL :=
      splitCh_joinCh (by simp) hnopipe
    have h6 : ((i :: rest).map natStrL).filter (fun p => p ≠ []) = (i :: rest).map natStrL :=
      List.filter_eq_self.mpr (fun x hx => by simp [hne x hx])
    rw [List.cons_append, h1, h2, h3, h4, h5, h6]

/-- C10: upserting a chunk with no embedding raises `ValueError` and leaves
the index unchanged; a chunk with an embedding is always accepted, and the
entity ids encoded into the stored metadata decode back to the chunk's
entity-id list. -/
theorem C10_upsert_requires_embedding (idx : List VecRecord) (ch : ChunkRec) :
    (ch.embedding = none →
       upsert idx ch = (.error "Chunk must have embedding before upserting", idx)) ∧
    (∀ emb, ch.embedding = some emb →
       ∃ r : VecRecord, upsert idx ch = (.ok (), upsertRecord idx r) ∧
         r.id = ch.id ∧ r.embedding = emb ∧
         decodeEntityIds r.entity_ids = ch.entity_ids.map natStrL) := by
  constructor
  · intro h
    unfold upsert
    rw [h]
  · intro emb h
    unfold upsert
    rw [h]
    exact ⟨_, rfl, rfl, rfl, decode_encode_entity_ids ch.entity_ids⟩

/-- C10 witness: the theorem applied to a chunk without embedding (rejected,
index unchanged) and to one with an embedding (accepted, ids round-trip). -/
theorem C10_witness :
    upsert [] ⟨1, "t", 2, "email", [3, 4], none, []⟩ =
      (.error "Chunk must have embedding before upserting", []) ∧
    ∃ r, upsert [] ⟨1, "t", 2, "email", [3, 4], some [], []⟩ = (.ok (), upsertRecord [] r) ∧
      r.id = 1 ∧ r.embedding = [] ∧ decodeEntityIds r.entity_ids = [3, 4].map natStrL :=
  ⟨(C10_upsert_requires_embedding [] ⟨1, "t", 2, "email", [3, 4], none, []⟩).1 rfl,
   (C10_upsert_requires_embedding [] ⟨1, "t", 2, "email", [3, 4], some [], []⟩).2 [] rfl⟩
